import Mathlib

/-!
# Verification of the GhostWriter editor control bridge

Shallow embedding, in Lean 4, of the document-mutation algorithms and the
control APIs of the GhostWriter writing assistant:

* the pure HTML mutation helpers of `HtmlEditorControlApi`
  (`src/components/VerbetografiaPanel.tsx`): `documentStatsFromText`,
  `highlightInHtml`, `clearHighlightInHtml`, `countOccurrencesInHtml`,
  and the macros `runMacro1HighlightDocument` /
  `runMacro2ManualNumberingSelection`;
* the cross-origin bridge `OnlyOfficeControlApi` (pending-request map,
  message handler, request timeouts);
* the remote command handlers: the dispatch table embedded in
  `src/components/OnlyOfficeEditor.tsx` and the one in
  `src/server/plugin.template.js`, including the OnlyOffice variant of the
  manual-numbering macro (`macro2ManualNumberingSelection`).

JavaScript strings are modelled as `List Char` (named `Str` below); DOM
fragments as a rose tree of text nodes and elements.  Machine integers do
not occur (all counts are JS numbers used as small naturals).
-/

/-- JavaScript strings are modelled as lists of characters. -/
abbrev Str := List Char

/-- Convert a Lean string literal to the `List Char` model. -/
def str (s : String) : Str := s.data

/-- Characters matched by the JavaScript regex class `\s` (and trimmed by
`String.prototype.trim`): space, tab, line feed, vertical tab, form feed,
carriage return, NBSP, and the most common Unicode space separators. -/
def jsIsSpace (c : Char) : Bool :=
  c = ' ' || c = '\t' || c = '\n' || c = '\x0b' || c = '\x0c' || c = '\r' ||
  c = ' ' || c = ' ' || (' ' ≤ c && c ≤ ' ') ||
  c = ' ' || c = ' ' || c = ' ' || c = ' ' ||
  c = '　' || c = '﻿'

/-- JavaScript `String.prototype.trim`: strip whitespace at both ends. -/
def jsTrim (s : Str) : Str :=
  ((s.dropWhile jsIsSpace).reverse.dropWhile jsIsSpace).reverse

/-- Case folding used for the `i` regex flag: compare lower-cased strings. -/
def lowerStr (s : Str) : Str := s.map Char.toLower

section SplitTerm

/-!
## Literal term matching

`highlightInHtml` builds `new RegExp(escapeRegExp(term), "gi")`: because all
regex metacharacters are escaped, this is case-insensitive *literal*
substring matching.  We model a match attempt at a position as a folded
prefix test, and the full `value.replace(regex, ...)` scan as a split of the
text-node value into plain (`gap`) and matched (`hit`) fragments, scanning
left to right and consuming each non-overlapping match whole.
-/

/-- The regex (with all metacharacters escaped and flag `i`) matches at the
start of `s`: the first `t.length` characters of `s` equal `t` up to case. -/
def matchesAt (t s : Str) : Bool :=
  lowerStr (s.take t.length) == lowerStr t

/-- `regex.test value` for the escaped case-insensitive regex: the term
occurs (fully) somewhere in `s`. -/
def containsTerm (t : Str) : Str → Bool
  | [] => matchesAt t []
  | c :: rest => matchesAt t (c :: rest) || containsTerm t rest

/-- One fragment of a scanned text-node value: a run of plain characters
(`gap`) or one full match of the term (`hit`). -/
inductive Frag where
  | gap : Str → Frag
  | hit : Str → Frag
deriving DecidableEq, Repr

/-- Is this fragment a match? -/
def Frag.isHit : Frag → Bool
  | .gap _ => false
  | .hit _ => true

/-- The characters of a fragment. -/
def Frag.chars : Frag → Str
  | .gap s => s
  | .hit s => s

/-- Prepend one plain character to a fragment list, merging it into a
leading `gap` when there is one (the scan emits maximal plain runs). -/
def consGap (c : Char) : List Frag → List Frag
  | Frag.gap s :: rest => Frag.gap (c :: s) :: rest
  | frags => Frag.gap [c] :: frags

/-- The left-to-right scan of `value.replace(regex, ...)`, fuelled so that
the recursion is structural (each step consumes at least one character when
the term is non-empty, so `s.length` fuel suffices; the zero-fuel case is
never reached then).  Callers of `highlightInHtml` always pass a trimmed
non-empty term. -/
def splitTermFuel (t : Str) : Nat → Str → List Frag
  | _, [] => []
  | 0, s => [Frag.gap s]
  | fuel + 1, c :: rest =>
    if matchesAt t (c :: rest) then
      Frag.hit ((c :: rest).take t.length) ::
        splitTermFuel t fuel ((c :: rest).drop t.length)
    else
      consGap c (splitTermFuel t fuel rest)

/-- Split a text-node value into the fragments produced by the global
case-insensitive literal regex scan of the source. -/
def splitTerm (t s : Str) : List Frag := splitTermFuel t s.length s

/-- Total number of matches the scan found (the `matches += 1` counter of
`highlightInHtml`). -/
def countHits (frags : List Frag) : Nat := (frags.filter Frag.isHit).length

end SplitTerm

-- Scratch sanity checks (concrete evaluations of the scan).
example : splitTerm (str "ab") (str "xabyAB") =
    [Frag.gap ['x'], Frag.hit ['a', 'b'], Frag.gap ['y'], Frag.hit ['A', 'B']] := by
  decide

example : containsTerm (str "ab") (str "xAby") = true := by decide
example : containsTerm (str "ab") (str "a b") = false := by decide
example : jsTrim (str "  ab ") = str "ab" := by decide

section DomModel

/-!
## DOM fragment model

`highlightInHtml`, `clearHighlightInHtml` and `countOccurrencesInHtml` parse
their `html` argument into a detached `<div>` and operate on the resulting
DOM subtree, returning its `innerHTML`.  We model the content of that root
`<div>` as a list of nodes; a node is a text node or an element with a tag,
attributes, and children.  The browser's parse/serialize round trip is the
identity on this model (the trees the algorithms produce never contain two
adjacent sibling text nodes, so re-parsing the serialized output yields the
same tree back).  The mutual `Node`/`NodeList` shape (instead of a nested
`List Node`) keeps structural recursion and induction straightforward.
-/

mutual

/-- A DOM node: a text node or an element. -/
inductive Node where
  | text : Str → Node
  | elem : Str → List (Str × Str) → NodeList → Node
deriving DecidableEq

/-- A list of sibling DOM nodes. -/
inductive NodeList where
  | nil : NodeList
  | cons : Node → NodeList → NodeList
deriving DecidableEq

end

/-- Append sibling lists (used when a text node is replaced by the fragment
of nodes that `value.replace` produced for it). -/
def NodeList.append : NodeList → NodeList → NodeList
  | .nil, l => l
  | .cons n rest, l => .cons n (rest.append l)

mutual

/-- `node.textContent`: concatenation of all text-node values below. -/
def textContent : Node → Str
  | .text v => v
  | .elem _ _ children => textContentList children

/-- `textContent` of a sibling list, in document order. -/
def textContentList : NodeList → Str
  | .nil => []
  | .cons n rest => textContent n ++ textContentList rest

end

/-- The check `parentTag === "mark"` / the `querySelectorAll("mark")` tag
test (HTML tag names compare case-insensitively). -/
def isMarkTag (tag : Str) : Bool := lowerStr tag == str "mark"

end DomModel

section HighlightAlgorithms

/-!
## `highlightInHtml` (VerbetografiaPanel.tsx lines 148-193)

The source walks all text nodes of the parsed tree in document order,
skipping text nodes whose direct parent element is a `<mark>` and empty text
nodes, collects them first, and then replaces each collected node that the
regex matches by the fragment list of its scan: plain gaps stay text nodes,
each match is wrapped in `<mark data-color=...>`.  Because the collection
happens before any replacement, the freshly created nodes are never
rescanned in the same call; a structural recursion over the original tree
is therefore an exact model.
-/

/-- `color || "yellow"`: the attribute value given to created marks. -/
def markColorAttr (color : Str) : Str := if color = [] then str "yellow" else color

/-- Turn one scan fragment into the DOM node(s) the source appends to the
replacement fragment: gaps become text nodes, hits become
`<mark data-color=color>match</mark>`. -/
def fragToNode (color : Str) : Frag → Node
  | .gap s => .text s
  | .hit s => .elem (str "mark") [(str "data-color", markColorAttr color)]
      (NodeList.cons (.text s) .nil)

/-- The replacement fragment for a matched text node. -/
def fragsToNodes (color : Str) : List Frag → NodeList
  | [] => .nil
  | f :: rest => .cons (fragToNode color f) (fragsToNodes color rest)

mutual

/-- Highlight pass over one node.  `underMark` records whether the direct
parent element is a `<mark>` (such text nodes are skipped, preventing
double-highlighting).  Returns the replacement sibling list for this node
together with the number of matches wrapped below it. -/
def highlightNode (t color : Str) (underMark : Bool) : Node → NodeList × Nat
  | .text v =>
    if underMark then (.cons (.text v) .nil, 0)
    else if v = [] then (.cons (.text v) .nil, 0)
    else if containsTerm t v then
      (fragsToNodes color (splitTerm t v), countHits (splitTerm t v))
    else (.cons (.text v) .nil, 0)
  | .elem tag attrs children =>
    let r := highlightList t color (isMarkTag tag) children
    (.cons (.elem tag attrs r.1) .nil, r.2)

/-- Highlight pass over a sibling list. -/
def highlightList (t color : Str) (underMark : Bool) : NodeList → NodeList × Nat
  | .nil => (.nil, 0)
  | .cons n rest =>
    let a := highlightNode t color underMark n
    let b := highlightList t color underMark rest
    (a.1.append b.1, a.2 + b.2)

end

/-- `highlightInHtml(html, term, color)`: highlight every occurrence of
`term` in the text nodes of `html` (the children of the parsed root div),
returning the new tree and the match count. -/
def highlightInHtml (html : NodeList) (term color : Str) : NodeList × Nat :=
  highlightList term color false html

/-!
## `clearHighlightInHtml` (VerbetografiaPanel.tsx lines 195-216)

The source collects `root.querySelectorAll("mark")` (all mark descendants,
outer before inner) and replaces each mark whose `textContent` matches the
term (case-insensitive substring, regex flag `i` only) by a plain text node
holding that text.  Replacing an outer eligible mark detaches its inner
marks: they are still counted (`matches`/`cleared`) and "replaced" on the
detached branch, but only the outer replacement is visible in the output.
Both counters increment together for every eligible mark (every collected
mark has a parent, so `replaceChild` never fails), so `cleared = matches`.
-/

mutual

/-- Clearing pass over one node: an eligible `<mark>` (tag `mark`,
`textContent` matching the term) collapses to its text content; any other
element keeps its tag and attributes and is cleared recursively. -/
def clearNode (t : Str) : Node → Node
  | .text v => .text v
  | .elem tag attrs children =>
    if isMarkTag tag && containsTerm t (textContentList children) then
      .text (textContentList children)
    else
      .elem tag attrs (clearList t children)

/-- Clearing pass over a sibling list. -/
def clearList (t : Str) : NodeList → NodeList
  | .nil => .nil
  | .cons n rest => .cons (clearNode t n) (clearList t rest)

end

mutual

/-- Number of mark descendants (the whole collected `querySelectorAll`
list, nested ones included) whose `textContent` matches the term — the
`matches` counter of `clearHighlightInHtml`. -/
def countEligibleNode (t : Str) : Node → Nat
  | .text _ => 0
  | .elem tag _ children =>
    (if isMarkTag tag && containsTerm t (textContentList children) then 1 else 0)
      + countEligibleList t children

/-- `countEligibleNode` over a sibling list. -/
def countEligibleList (t : Str) : NodeList → Nat
  | .nil => 0
  | .cons n rest => countEligibleNode t n + countEligibleList t rest

end

/-- `clearHighlightInHtml(html, term)`: unwrap every mark whose text matches
`term`; returns the new tree, `matches`, and `cleared`. -/
def clearHighlightInHtml (html : NodeList) (term : Str) : NodeList × Nat × Nat :=
  (clearList term html, countEligibleList term html, countEligibleList term html)

/-!
## `countOccurrencesInHtml` (VerbetografiaPanel.tsx lines 218-243)

Pure read-only scan: walks *every* text node (no mark-parent skip) and sums
`value.match(regex).length`, the number of non-overlapping matches the
global scan finds — i.e. the hits of `splitTerm`.  Empty or missing term
(after trimming) returns 0 without scanning.
-/

mutual

/-- Occurrence count below one node. -/
def countNode (t : Str) : Node → Nat
  | .text v => countHits (splitTerm t v)
  | .elem _ _ children => countList t children

/-- Occurrence count over a sibling list. -/
def countList (t : Str) : NodeList → Nat
  | .nil => 0
  | .cons n rest => countNode t n + countList t rest

end

/-- `countOccurrencesInHtml(html, term)`. -/
def countOccurrencesInHtml (html : NodeList) (term : Str) : Nat :=
  let normalizedTerm := jsTrim term
  if normalizedTerm = [] then 0 else countList normalizedTerm html

end HighlightAlgorithms

-- Scratch sanity checks on a small tree.
example :
    (highlightInHtml
      (NodeList.cons (.elem (str "p") [] (NodeList.cons (.text (str "an abacus")) .nil)) .nil)
      (str "ab") (str "#fef08a")).2 = 1 := by decide

example :
    countOccurrencesInHtml
      (NodeList.cons (.text (str "aba ab")) .nil) (str "ab") = 2 := by decide

section SplitTermLemmas

/-!
## Properties of the term scan

The lemmas below capture what the `value.replace(regex, ...)` scan
guarantees: the fragments concatenate back to the scanned value, every
`hit` equals the term up to case, and no `gap` contains a further
occurrence of the term (the scan is leftmost and exhaustive).
-/

/-- Concatenation of the fragment characters. -/
def flattenFrags (frags : List Frag) : Str := (frags.map Frag.chars).flatten

theorem flattenFrags_consGap (c : Char) (F : List Frag) :
    flattenFrags (consGap c F) = c :: flattenFrags F := by
  match F with
  | [] => simp [consGap, flattenFrags, Frag.chars]
  | Frag.gap s :: rest => simp [consGap, flattenFrags, Frag.chars]
  | Frag.hit s :: rest => simp [consGap, flattenFrags, Frag.chars]

theorem flattenFrags_splitTermFuel (t : Str) :
    ∀ fuel s, flattenFrags (splitTermFuel t fuel s) = s := by
  intro fuel
  induction fuel with
  | zero =>
    intro s
    cases s with
    | nil => simp [splitTermFuel, flattenFrags]
    | cons c rest => simp [splitTermFuel, flattenFrags, Frag.chars]
  | succ n ih =>
    intro s
    cases s with
    | nil => simp [splitTermFuel, flattenFrags]
    | cons c rest =>
      by_cases h : matchesAt t (c :: rest) = true
      · rw [splitTermFuel, if_pos h]
        show flattenFrags (Frag.hit _ :: _) = _
        have : flattenFrags (Frag.hit ((c :: rest).take t.length) ::
            splitTermFuel t n ((c :: rest).drop t.length)) =
            (c :: rest).take t.length ++
              flattenFrags (splitTermFuel t n ((c :: rest).drop t.length)) := by
          simp [flattenFrags, Frag.chars]
        rw [this, ih, List.take_append_drop]
      · rw [splitTermFuel, if_neg h, flattenFrags_consGap, ih]

theorem matchesAt_iff (t s : Str) :
    matchesAt t s = true ↔ lowerStr (s.take t.length) = lowerStr t := by
  simp [matchesAt]

theorem length_le_of_matchesAt {t s : Str} (h : matchesAt t s = true) :
    t.length ≤ s.length := by
  rw [matchesAt_iff] at h
  have hl := congrArg List.length h
  simp [lowerStr] at hl
  omega

theorem matchesAt_extend {t x y : Str} (pre : x <+: y)
    (h : matchesAt t x = true) : matchesAt t y = true := by
  have hlen := length_le_of_matchesAt h
  rw [matchesAt_iff] at h ⊢
  obtain ⟨z, rfl⟩ := pre
  rwa [List.take_append_of_le_length hlen]

theorem matchesAt_nil {t : Str} (ht : t ≠ []) : matchesAt t [] = false := by
  cases t with
  | nil => exact absurd rfl ht
  | cons c rest => simp [matchesAt, lowerStr]

theorem containsTerm_nil {t : Str} (ht : t ≠ []) : containsTerm t [] = false := by
  simp [containsTerm, matchesAt_nil ht]

theorem gap_not_contains (t : Str) (ht : t ≠ []) :
    ∀ fuel s, s.length ≤ fuel →
      ∀ g, Frag.gap g ∈ splitTermFuel t fuel s → containsTerm t g = false := by
  have ht1 : 1 ≤ t.length := by
    cases t with
    | nil => exact absurd rfl ht
    | cons _ _ => simp
  intro fuel
  induction fuel with
  | zero =>
    intro s hs g hg
    cases s with
    | nil => simp [splitTermFuel] at hg
    | cons c rest => simp at hs
  | succ n ih =>
    intro s hs g hg
    cases s with
    | nil => simp [splitTermFuel] at hg
    | cons c rest =>
      by_cases h : matchesAt t (c :: rest) = true
      · rw [splitTermFuel, if_pos h] at hg
        rcases List.mem_cons.mp hg with hhead | htail
        · exact absurd hhead (by simp)
        · have hlen : ((c :: rest).drop t.length).length ≤ n := by
            simp [List.length_drop]
            simp at hs
            omega
          exact ih _ hlen g htail
      · rw [splitTermFuel, if_neg h] at hg
        -- the recursive result on `rest`
        have hrest : rest.length ≤ n := by simp at hs; omega
        have ihrest := ih rest hrest
        -- analyze the head of the recursive result
        match hF : splitTermFuel t n rest with
        | [] =>
          rw [hF] at hg
          simp [consGap] at hg
          subst hg
          have hm : matchesAt t [c] = false := by
            by_contra hmc
            have : matchesAt t (c :: rest) = true :=
              matchesAt_extend ⟨rest, rfl⟩ (by simpa using hmc)
            exact absurd this (by simp [h])
          simp [containsTerm, hm, matchesAt_nil ht]
        | Frag.gap s' :: F' =>
          rw [hF] at hg
          simp [consGap] at hg
          rcases hg with hhead | htail
          · subst hhead
            have hs' : containsTerm t s' = false := by
              exact ihrest s' (by rw [hF]; exact List.mem_cons_self _ _)
            have hpre : s' <+: rest := by
              have := flattenFrags_splitTermFuel t n rest
              rw [hF] at this
              have : s' ++ flattenFrags F' = rest := by
                simpa [flattenFrags, Frag.chars] using this
              exact ⟨flattenFrags F', this⟩
            have hm : matchesAt t (c :: s') = false := by
              by_contra hmc
              have : matchesAt t (c :: rest) = true := by
                refine matchesAt_extend ?_ (by simpa using hmc)
                obtain ⟨z, hz⟩ := hpre
                exact ⟨z, by simp [← hz]⟩
              exact absurd this (by simp [h])
            simp [containsTerm, hm, hs']
          · exact ihrest g (by rw [hF]; exact List.mem_cons_of_mem _ htail)
        | Frag.hit h' :: F' =>
          rw [hF] at hg
          simp [consGap] at hg
          rcases hg with hhead | htail
          · subst hhead
            have hm : matchesAt t [c] = false := by
              by_contra hmc
              have : matchesAt t (c :: rest) = true :=
                matchesAt_extend ⟨rest, rfl⟩ (by simpa using hmc)
              exact absurd this (by simp [h])
            simp [containsTerm, hm, matchesAt_nil ht]
          · exact ihrest g (by rw [hF]; exact List.mem_cons_of_mem _ htail)

theorem countHits_consGap (c : Char) (F : List Frag) :
    countHits (consGap c F) = countHits F := by
  match F with
  | [] => simp [consGap, countHits, Frag.isHit]
  | Frag.gap s :: rest => simp [consGap, countHits, Frag.isHit]
  | Frag.hit s :: rest => simp [consGap, countHits, Frag.isHit]

theorem countHits_cons (f : Frag) (F : List Frag) :
    countHits (f :: F) = (if f.isHit then 1 else 0) + countHits F := by
  cases f <;> simp [countHits, Frag.isHit, List.filter, Nat.add_comm]

/-- If the term occurs nowhere in `s`, the scan finds no match. -/
theorem countHits_splitTermFuel_of_not_contains (t : Str) :
    ∀ fuel s, containsTerm t s = false →
      countHits (splitTermFuel t fuel s) = 0 := by
  intro fuel
  induction fuel with
  | zero =>
    intro s _
    cases s with
    | nil => simp [splitTermFuel, countHits]
    | cons c rest => simp [splitTermFuel, countHits, Frag.isHit]
  | succ n ih =>
    intro s hc
    cases s with
    | nil => simp [splitTermFuel, countHits]
    | cons c rest =>
      have hsplit : matchesAt t (c :: rest) = false ∧ containsTerm t rest = false := by
        have : (matchesAt t (c :: rest) || containsTerm t rest) = false := hc
        simpa using this
      rw [splitTermFuel, if_neg (by simp [hsplit.1]), countHits_consGap]
      exact ih rest hsplit.2

/-- Every `hit` the scan emits equals the term up to case. -/
theorem hit_lowerEq (t : Str) :
    ∀ fuel s h, Frag.hit h ∈ splitTermFuel t fuel s → lowerStr h = lowerStr t := by
  intro fuel
  induction fuel with
  | zero =>
    intro s h hm
    cases s with
    | nil => simp [splitTermFuel] at hm
    | cons c rest => simp [splitTermFuel] at hm
  | succ n ih =>
    intro s h hm
    cases s with
    | nil => simp [splitTermFuel] at hm
    | cons c rest =>
      by_cases hp : matchesAt t (c :: rest) = true
      · rw [splitTermFuel, if_pos hp] at hm
        rcases List.mem_cons.mp hm with hhead | htail
        · have := (matchesAt_iff t (c :: rest)).mp hp
          simp only [Frag.hit.injEq] at hhead
          rw [hhead, this]
        · exact ih _ h htail
      · rw [splitTermFuel, if_neg hp] at hm
        have : Frag.hit h ∈ splitTermFuel t n rest := by
          revert hm
          match splitTermFuel t n rest with
          | [] => intro hm; simp [consGap] at hm
          | Frag.gap s' :: F' => intro hm; simpa [consGap] using hm
          | Frag.hit h' :: F' => intro hm; simpa [consGap] using hm
        exact ih rest h this

/-- A string equal to the term up to case is scanned as one single hit. -/
theorem splitTermFuel_exact (t h : Str) (ht : t ≠ []) (hlow : lowerStr h = lowerStr t) :
    ∀ n, splitTermFuel t (n + 1) h = [Frag.hit h] := by
  intro n
  have hlen : h.length = t.length := by
    have := congrArg List.length hlow
    simpa [lowerStr] using this
  have hne : h ≠ [] := by
    intro hnil
    apply ht
    rw [hnil] at hlen
    simp at hlen
    exact List.eq_nil_of_length_eq_zero hlen.symm
  match h, hne with
  | c :: rest, _ =>
    have hp : matchesAt t (c :: rest) = true := by
      rw [matchesAt_iff, ← hlen, List.take_length]
      exact hlow
    rw [splitTermFuel, if_pos hp, ← hlen, List.take_length, List.drop_length]
    simp [splitTermFuel]

/-- A string equal to the term up to case contains exactly one match. -/
theorem countHits_splitTerm_exact (t h : Str) (ht : t ≠ [])
    (hlow : lowerStr h = lowerStr t) : countHits (splitTerm t h) = 1 := by
  have hne : h ≠ [] := by
    intro hnil
    apply ht
    have := congrArg List.length hlow
    rw [hnil] at this
    simp [lowerStr] at this
    exact List.eq_nil_of_length_eq_zero this.symm
  match h, hne with
  | c :: rest, _ =>
    rw [splitTerm]
    have : (c :: rest).length = rest.length + 1 := by simp
    rw [this, splitTermFuel_exact t (c :: rest) ht hlow rest.length]
    simp [countHits, Frag.isHit]

end SplitTermLemmas

section HighlightLemmas

/-!
## Idempotence machinery for `highlightInHtml`

A tree is *clean* (for a term, under a parent-is-mark flag) when every text
node the highlight walker would scan — i.e. every text node whose direct
parent element is not a `<mark>` — contains no occurrence of the term.  A
clean tree is left untouched with zero matches, and the output of one
highlight pass is always clean: together these give idempotence.
-/

mutual

/-- Every scannable text node below `n` is free of the term. -/
def cleanNode (t : Str) (underMark : Bool) : Node → Bool
  | .text v => underMark || !containsTerm t v
  | .elem tag _ children => cleanList t (isMarkTag tag) children

/-- `cleanNode` over a sibling list. -/
def cleanList (t : Str) (underMark : Bool) : NodeList → Bool
  | .nil => true
  | .cons n rest => cleanNode t underMark n && cleanList t underMark rest

end

mutual

/-- A clean node is returned unchanged with zero matches. -/
theorem highlightNode_of_clean (t c : Str) (um : Bool) :
    ∀ n, cleanNode t um n = true →
      highlightNode t c um n = (NodeList.cons n .nil, 0)
  | Node.text v, h => by
    rw [cleanNode] at h
    cases um with
    | true => rw [highlightNode]; simp
    | false =>
      have hctf : containsTerm t v = false := by simpa using h
      rw [highlightNode]
      by_cases hv : v = []
      · simp [hv]
      · simp [hv, hctf]
  | Node.elem tag attrs children, h => by
    rw [cleanNode] at h
    rw [highlightNode, highlightList_of_clean t c (isMarkTag tag) children h]

/-- A clean sibling list is returned unchanged with zero matches. -/
theorem highlightList_of_clean (t c : Str) (um : Bool) :
    ∀ l, cleanList t um l = true → highlightList t c um l = (l, 0)
  | NodeList.nil, _ => by rw [highlightList]
  | NodeList.cons n rest, h => by
    rw [cleanList, Bool.and_eq_true] at h
    rw [highlightList, highlightNode_of_clean t c um n h.1,
      highlightList_of_clean t c um rest h.2]
    rfl

end

/-- The fragment replacement list of a matched text node is clean: gaps
contain no occurrence, and each hit sits directly under a fresh `<mark>`. -/
theorem cleanList_fragsToNodes (t c : Str) (frags : List Frag)
    (hgap : ∀ g, Frag.gap g ∈ frags → containsTerm t g = false) :
    cleanList t false (fragsToNodes c frags) = true := by
  induction frags with
  | nil => rw [fragsToNodes, cleanList]
  | cons f rest ih =>
    rw [fragsToNodes, cleanList, Bool.and_eq_true]
    refine ⟨?_, ih fun g hg => hgap g (List.mem_cons_of_mem _ hg)⟩
    cases f with
    | gap s =>
      have := hgap s (List.mem_cons_self _ _)
      simp [fragToNode, cleanNode, this]
    | hit s =>
      have hmark : isMarkTag (str "mark") = true := by decide
      simp [fragToNode, cleanNode, cleanList, hmark]

/-- `cleanList` distributes over `NodeList.append`. -/
theorem cleanList_append (t : Str) (um : Bool) :
    ∀ a b, cleanList t um a = true → cleanList t um b = true →
      cleanList t um (a.append b) = true
  | NodeList.nil, b, _, hb => by rwa [NodeList.append]
  | NodeList.cons n rest, b, ha, hb => by
    rw [cleanList, Bool.and_eq_true] at ha
    rw [NodeList.append, cleanList, Bool.and_eq_true]
    exact ⟨ha.1, cleanList_append t um rest b ha.2 hb⟩

mutual

/-- One highlight pass leaves every node clean (for the same term): matched
text is wrapped in marks and the remaining plain text holds no occurrence. -/
theorem cleanNode_highlight (t c : Str) (ht : t ≠ []) (um : Bool) :
    ∀ n, cleanList t um (highlightNode t c um n).1 = true
  | Node.text v => by
    rw [highlightNode]
    cases um with
    | true => simp [cleanList, cleanNode]
    | false =>
      by_cases hv : v = []
      · simp [hv, cleanList, cleanNode, containsTerm_nil ht]
      · by_cases hc : containsTerm t v = true
        · simp only [hv, if_false, hc, if_true]
          refine cleanList_fragsToNodes t c _ fun g hg => ?_
          exact gap_not_contains t ht v.length v (le_refl _) g hg
        · have hcf : containsTerm t v = false := by simpa using hc
          simp [hv, hcf, cleanList, cleanNode]
  | Node.elem tag attrs children => by
    have h := cleanList_highlight t c ht (isMarkTag tag) children
    rw [highlightNode]
    simp only [cleanList, cleanNode, Bool.and_true]
    exact h

/-- One highlight pass leaves every sibling list clean. -/
theorem cleanList_highlight (t c : Str) (ht : t ≠ []) (um : Bool) :
    ∀ l, cleanList t um (highlightList t c um l).1 = true
  | NodeList.nil => by rw [highlightList]; rfl
  | NodeList.cons n rest => by
    rw [highlightList]
    have h1 := cleanNode_highlight t c ht um n
    have h2 := cleanList_highlight t c ht um rest
    exact cleanList_append t um _ _ h1 h2

end

/-- `textContentList` distributes over `NodeList.append`. -/
theorem textContentList_append :
    ∀ a b, textContentList (NodeList.append a b) =
      textContentList a ++ textContentList b
  | NodeList.nil, b => by rw [NodeList.append, textContentList]; rfl
  | NodeList.cons n rest, b => by
    rw [NodeList.append, textContentList, textContentList,
      textContentList_append rest b, List.append_assoc]

/-- The replacement fragment of a text node carries exactly the scanned
characters. -/
theorem textContentList_fragsToNodes (c : Str) (frags : List Frag) :
    textContentList (fragsToNodes c frags) = flattenFrags frags := by
  induction frags with
  | nil => rw [fragsToNodes, textContentList, flattenFrags]; rfl
  | cons f rest ih =>
    cases f with
    | gap s =>
      rw [fragsToNodes, textContentList]
      simp only [fragToNode, textContent]
      have : flattenFrags (Frag.gap s :: rest) = s ++ flattenFrags rest := by
        simp [flattenFrags, Frag.chars]
      rw [this, ih]
    | hit s =>
      rw [fragsToNodes, textContentList]
      simp only [fragToNode, textContent, textContentList, List.append_nil]
      have : flattenFrags (Frag.hit s :: rest) = s ++ flattenFrags rest := by
        simp [flattenFrags, Frag.chars]
      rw [this, ih]

mutual

/-- A highlight pass never changes the rendered text of a node. -/
theorem textContent_highlightNode (t c : Str) (um : Bool) :
    ∀ n, textContentList (highlightNode t c um n).1 = textContent n
  | Node.text v => by
    rw [highlightNode]
    cases um with
    | true => simp [textContentList, textContent]
    | false =>
      by_cases hv : v = []
      · simp [hv, textContentList, textContent]
      · by_cases hc : containsTerm t v = true
        · simp only [hv, hc, if_true, ite_false, Bool.false_eq_true, if_false]
          rw [textContentList_fragsToNodes, splitTerm, flattenFrags_splitTermFuel]
          rfl
        · simp [hv, hc, textContentList, textContent]
  | Node.elem tag attrs children => by
    have h := textContent_highlightList t c (isMarkTag tag) children
    rw [highlightNode]
    simp only [textContentList, textContent, List.append_nil]
    exact h

/-- A highlight pass never changes the rendered text of a sibling list. -/
theorem textContent_highlightList (t c : Str) (um : Bool) :
    ∀ l, textContentList (highlightList t c um l).1 = textContentList l
  | NodeList.nil => by rw [highlightList]
  | NodeList.cons n rest => by
    rw [highlightList]
    show textContentList (NodeList.append _ _) = _
    rw [textContentList_append, textContent_highlightNode t c um n,
      textContent_highlightList t c um rest, textContentList]

end

mutual

/-- Unwrapping marks never changes the rendered text of a node. -/
theorem textContent_clearNode (t : Str) :
    ∀ n, textContent (clearNode t n) = textContent n
  | Node.text v => by rw [clearNode]
  | Node.elem tag attrs children => by
    rw [clearNode]
    by_cases h : (isMarkTag tag && containsTerm t (textContentList children)) = true
    · rw [if_pos h]; rfl
    · rw [if_neg h]
      show textContentList (clearList t children) = textContentList children
      exact textContent_clearList t children

/-- Unwrapping marks never changes the rendered text of a sibling list. -/
theorem textContent_clearList (t : Str) :
    ∀ l, textContentList (clearList t l) = textContentList l
  | NodeList.nil => by rw [clearList]
  | NodeList.cons n rest => by
    rw [clearList, textContentList, textContent_clearNode t n,
      textContent_clearList t rest, textContentList]

end

/-- `countList` distributes over `NodeList.append`. -/
theorem countList_append (t : Str) :
    ∀ a b, countList t (NodeList.append a b) = countList t a + countList t b
  | NodeList.nil, b => by simp [NodeList.append, countList]
  | NodeList.cons n rest, b => by
    rw [NodeList.append, countList, countList, countList_append t rest b,
      Nat.add_assoc]

/-- Counting occurrences over the replacement fragment of a matched text
node gives back the number of hits of its scan: gaps contribute nothing and
each freshly wrapped hit is itself exactly one occurrence of the term. -/
theorem countList_fragsToNodes (t c : Str) (ht : t ≠ []) (frags : List Frag)
    (hgap : ∀ g, Frag.gap g ∈ frags → containsTerm t g = false)
    (hhit : ∀ h, Frag.hit h ∈ frags → lowerStr h = lowerStr t) :
    countList t (fragsToNodes c frags) = countHits frags := by
  induction frags with
  | nil => rw [fragsToNodes, countList, countHits]; rfl
  | cons f rest ih =>
    have ihr := ih (fun g hg => hgap g (List.mem_cons_of_mem _ hg))
      (fun h hh => hhit h (List.mem_cons_of_mem _ hh))
    cases f with
    | gap s =>
      have hg := hgap s (List.mem_cons_self _ _)
      rw [fragsToNodes, countList, countHits_cons]
      simp only [fragToNode, countNode, Frag.isHit, Bool.false_eq_true,
        if_false, Nat.zero_add]
      rw [splitTerm, countHits_splitTermFuel_of_not_contains t _ _ hg, ihr]
      simp
    | hit s =>
      have hh := hhit s (List.mem_cons_self _ _)
      rw [fragsToNodes, countList, countHits_cons]
      simp only [fragToNode, countNode, countList, Frag.isHit, if_true]
      rw [countHits_splitTerm_exact t s ht hh, ihr]

mutual

/-- A highlight pass never changes the occurrence count of its own term
(`countOccurrencesInHtml` does not skip mark children). -/
theorem countList_highlightNode (t c : Str) (ht : t ≠ []) (um : Bool) :
    ∀ n, countList t (highlightNode t c um n).1 = countNode t n
  | Node.text v => by
    rw [highlightNode]
    cases um with
    | true => simp [countList, countNode]
    | false =>
      by_cases hv : v = []
      · simp [hv, countList, countNode]
      · by_cases hc : containsTerm t v = true
        · simp only [hv, if_false, hc, if_true]
          rw [countNode]
          refine countList_fragsToNodes t c ht _ ?_ ?_
          · exact fun g hg => gap_not_contains t ht v.length v (le_refl _) g hg
          · exact fun h hh => hit_lowerEq t v.length v h hh
        · simp [hv, hc, countList, countNode]
  | Node.elem tag attrs children => by
    have h := countList_highlightList t c ht (isMarkTag tag) children
    rw [highlightNode]
    simp only [countList, countNode, Nat.add_zero]
    exact h

/-- A highlight pass never changes the occurrence count over a list. -/
theorem countList_highlightList (t c : Str) (ht : t ≠ []) (um : Bool) :
    ∀ l, countList t (highlightList t c um l).1 = countList t l
  | NodeList.nil => by rw [highlightList]
  | NodeList.cons n rest => by
    rw [highlightList]
    show countList t (NodeList.append _ _) = _
    rw [countList_append, countList_highlightNode t c ht um n,
      countList_highlightList t c ht um rest, countList]

end

end HighlightLemmas

section HighlightClaims

/-- A small concrete document used by the witnesses: a paragraph of plain
text followed by a pre-existing mark. -/
def sampleDoc : NodeList :=
  NodeList.cons
    (.elem (str "p") [] (NodeList.cons (.text (str "an ABacus ab")) .nil))
    (NodeList.cons
      (.elem (str "mark") [(str "data-color", str "#fef08a")]
        (NodeList.cons (.text (str "ab")) .nil)) .nil)

/-- C1: highlighting is idempotent — for every html tree, non-empty trimmed
term `t` and color `c`, re-applying `highlightInHtml` to the output of a
previous `highlightInHtml` with the same term reports `matches = 0`,
because text nodes whose direct parent is a `<mark>` are skipped by the
scan. -/
theorem highlightInHtml_idempotent (html : NodeList) (t c : Str)
    (ht : t ≠ []) (htrim : jsTrim t = t) :
    (highlightInHtml (highlightInHtml html t c).1 t c).2 = 0 := by
  have hclean := cleanList_highlight t c ht false html
  show (highlightList t c false (highlightList t c false html).1).2 = 0
  rw [highlightList_of_clean t c false _ hclean]

/-- Witness for C1 at a concrete document, term and color. -/
theorem highlightInHtml_idempotent_witness :
    (str "ab" ≠ [] ∧ jsTrim (str "ab") = str "ab") ∧
      (highlightInHtml (highlightInHtml sampleDoc (str "ab") (str "y")).1
        (str "ab") (str "y")).2 = 0 :=
  ⟨⟨by decide, by decide⟩,
    highlightInHtml_idempotent sampleDoc (str "ab") (str "y") (by decide) (by decide)⟩

/-- C2: highlight followed by clear-highlight is a text-content round trip —
for every html tree, non-empty trimmed term `t` and color `c`, the tree
produced by `clearHighlightInHtml (highlightInHtml html t c).html t` renders
the same text content (concatenation of all text nodes in document order)
as the original. -/
theorem highlight_clear_roundtrip (html : NodeList) (t c : Str)
    (ht : t ≠ []) (htrim : jsTrim t = t) :
    textContentList (clearHighlightInHtml (highlightInHtml html t c).1 t).1 =
      textContentList html := by
  show textContentList (clearList t (highlightList t c false html).1) =
    textContentList html
  rw [textContent_clearList, textContent_highlightList]

/-- Witness for C2 at a concrete document, term and color. -/
theorem highlight_clear_roundtrip_witness :
    (str "ab" ≠ [] ∧ jsTrim (str "ab") = str "ab") ∧
      textContentList
        (clearHighlightInHtml (highlightInHtml sampleDoc (str "ab") (str "y")).1
          (str "ab")).1 = textContentList sampleDoc :=
  ⟨⟨by decide, by decide⟩,
    highlight_clear_roundtrip sampleDoc (str "ab") (str "y") (by decide) (by decide)⟩

/-- C10: occurrence counting does not skip highlighted text —
`countOccurrencesInHtml` walks every text node including those inside
`<mark>` elements, so highlighting leaves the occurrence count of the term
unchanged, although re-running `highlightInHtml` on the highlighted tree
reports `matches = 0`. -/
theorem countOccurrences_invariant_under_highlight (html : NodeList) (t c : Str)
    (ht : t ≠ []) (htrim : jsTrim t = t) :
    countOccurrencesInHtml (highlightInHtml html t c).1 t =
        countOccurrencesInHtml html t ∧
      (highlightInHtml (highlightInHtml html t c).1 t c).2 = 0 := by
  constructor
  · show (let normalizedTerm := jsTrim t;
      if normalizedTerm = [] then 0
      else countList normalizedTerm (highlightList t c false html).1) = _
    rw [countOccurrencesInHtml, htrim]
    simp only [if_neg ht]
    exact countList_highlightList t c ht false html
  · have hclean := cleanList_highlight t c ht false html
    show (highlightList t c false (highlightList t c false html).1).2 = 0
    rw [highlightList_of_clean t c false _ hclean]

/-- Witness for C10 at a concrete document, term and color. -/
theorem countOccurrences_invariant_under_highlight_witness :
    (str "ab" ≠ [] ∧ jsTrim (str "ab") = str "ab") ∧
      (countOccurrencesInHtml (highlightInHtml sampleDoc (str "ab") (str "y")).1
          (str "ab") = countOccurrencesInHtml sampleDoc (str "ab") ∧
        (highlightInHtml (highlightInHtml sampleDoc (str "ab") (str "y")).1
          (str "ab") (str "y")).2 = 0) :=
  ⟨⟨by decide, by decide⟩,
    countOccurrences_invariant_under_highlight sampleDoc (str "ab") (str "y")
      (by decide) (by decide)⟩

end HighlightClaims

section DocumentStats

/-!
## `documentStatsFromText` (VerbetografiaPanel.tsx lines 125-136)

The in-process `getDocumentStats` derives all five figures from the plain
text render of the document.  `split(/\n+/)` and `split(/\s+/)` are
modelled by `splitOnRuns`, which mirrors the JavaScript `String.split`
semantics for a one-character-class-plus regex (pieces between maximal
separator runs, with empty edge pieces when the string starts or ends with
a separator).
-/

/-- Prepend a character to the first piece of a split result. -/
def consPiece (c : Char) : List Str → List Str
  | s :: rest => (c :: s) :: rest
  | [] => [[c]]

/-- JavaScript `s.split(/X+/)` for a character class `X`: the pieces
between maximal runs of separator characters. -/
def splitOnRuns (p : Char → Bool) : Str → List Str
  | [] => [[]]
  | c :: rest =>
    let r := splitOnRuns p rest
    if p c then
      match rest with
      | [] => [] :: r
      | d :: _ => if p d then r else [] :: r
    else
      consPiece c r

/-- The five derived figures of `getDocumentStats`. -/
structure DocumentStats where
  pages : Nat
  paragraphs : Nat
  words : Nat
  symbols : Nat
  symbolsWithSpaces : Nat
deriving DecidableEq, Repr

/-- `documentStatsFromText(text)`: paragraphs from blank-line splitting,
words from whitespace tokenisation, symbols with/without whitespace, pages
as `ceil(symbolsWithSpaces / 3000)` floored at 1 when non-empty
(`(n + 2999) / 3000` is the natural-number ceiling of `n / 3000`). -/
def documentStatsFromText (text : Str) : DocumentStats :=
  let raw := text
  let trimmed := jsTrim raw
  let paragraphs :=
    if trimmed = [] then 0
    else (((splitOnRuns (fun c => c = '\n') trimmed).map jsTrim).filter
      (fun s => s ≠ [])).length
  let words :=
    if trimmed = [] then 0
    else ((splitOnRuns jsIsSpace trimmed).filter (fun s => s ≠ [])).length
  let symbolsWithSpaces := raw.length
  let symbols := (raw.filter (fun c => !jsIsSpace c)).length
  let pages :=
    if symbolsWithSpaces > 0 then max 1 ((symbolsWithSpaces + 2999) / 3000)
    else 0
  { pages := pages, paragraphs := paragraphs, words := words,
    symbols := symbols, symbolsWithSpaces := symbolsWithSpaces }

/-- C8: stats postcondition — for every input text, `pages` is
`max 1 (ceil(symbolsWithSpaces / 3000))` when `symbolsWithSpaces > 0` and
`0` otherwise, and `symbolsWithSpaces ≥ symbols ≥ 0`; all five fields are
natural numbers, hence non-negative. -/
theorem documentStatsFromText_postcondition (text : Str) :
    (documentStatsFromText text).pages =
      (if (documentStatsFromText text).symbolsWithSpaces > 0
        then max 1 (((documentStatsFromText text).symbolsWithSpaces + 2999) / 3000)
        else 0) ∧
      (documentStatsFromText text).symbols ≤
        (documentStatsFromText text).symbolsWithSpaces ∧
      0 ≤ (documentStatsFromText text).pages ∧
      0 ≤ (documentStatsFromText text).paragraphs ∧
      0 ≤ (documentStatsFromText text).words := by
  refine ⟨rfl, ?_, Nat.zero_le _, Nat.zero_le _, Nat.zero_le _⟩
  show (text.filter (fun c => !jsIsSpace c)).length ≤ text.length
  exact List.length_filter_le _ _

end DocumentStats

section ManualNumbering

/-!
## `runMacro2ManualNumberingSelection` (VerbetografiaPanel.tsx lines 381-414)

The TipTap document is modelled as the list of its top-level paragraph
texts.  In ProseMirror position arithmetic the paragraph node `i` starts at
`Σ_{j<i} (lengthⱼ + 2)` and its text at that position plus one;
`nodesBetween` over the selection (here: the whole document) collects
`pos + 1` for every paragraph with non-blank text.  `tr.insertText(s, p, p)`
inserts into whichever paragraph the absolute position `p` falls in.  The
source inserts from the last selected paragraph to the first so that
earlier insertions do not shift the positions of paragraphs not yet
processed; the fold below replays exactly that descending-index order.
-/

/-- The four spacing modes of Macro 2. -/
inductive SpacingMode where
  | normal_single
  | normal_double
  | nbsp_single
  | nbsp_double
deriving DecidableEq, Repr

/-- `SPACING_SUFFIX_MAP`. -/
def spacingSuffix : SpacingMode → Str
  | .normal_single => [' ']
  | .normal_double => [' ', ' ']
  | .nbsp_single => [' ']
  | .nbsp_double => [' ', ' ']

/-- Decimal numeral of a JS number (`String(n)` for a natural). -/
def natStr (n : Nat) : Str := (Nat.repr n).data

/-- JS `String(n).padStart(2, "0")`. -/
def padStart2 (s : Str) : Str :=
  if s.length ≥ 2 then s else List.replicate (2 - s.length) '0' ++ s

/-- The numeral part of an inserted prefix: zero-padded to two digits
exactly when the selection holds more than 9 paragraphs
(`useLeadingZero = selectedParagraphStarts.length > 9`). -/
def macro2PrefixNumber (useLeadingZero : Bool) (itemNumber : Nat) : Str :=
  if useLeadingZero then padStart2 (natStr itemNumber) else natStr itemNumber

/-- `state.doc.nodesBetween(from, to, ...)` over a selection covering the
given paragraphs: the text-start position (`pos + 1`) of every paragraph
whose text content is non-blank, in document order.  `basePos` is the
position of the first paragraph's node. -/
def selectedParagraphStarts (basePos : Nat) : List Str → List Nat
  | [] => []
  | p :: rest =>
    let tail := selectedParagraphStarts (basePos + p.length + 2) rest
    if jsTrim p ≠ [] then (basePos + 1) :: tail else tail

/-- `tr.insertText(s, pos, pos)`: insert `s` at absolute document position
`pos` (paragraph `i` spans `[startᵢ, startᵢ + lengthᵢ + 2)`, its text
offsets are `startᵢ + 1 .. startᵢ + 1 + lengthᵢ`). -/
def insertTextAt (s : Str) : Nat → List Str → List Str
  | _, [] => []
  | pos, p :: rest =>
    if pos ≤ p.length + 1 then
      (p.take (pos - 1) ++ s ++ p.drop (pos - 1)) :: rest
    else
      p :: insertTextAt s (pos - (p.length + 2)) rest

/-- The result record of Macro 2. -/
structure Macro2Result where
  converted : Nat
  hadNumbering : Nat
deriving DecidableEq, Repr

/-- `runMacro2ManualNumberingSelection(spacingMode)` with the selection
covering the given paragraphs: fails when no selected paragraph has
non-blank text, otherwise inserts `"{number}.{suffix}"` at the start of
each selected paragraph, iterating from the **last** selected paragraph to
the first (`for i = length-1 downto 0`, replayed here as a right fold over
the enumerated starts), and returns the new document plus
`{converted, hadNumbering}` — both set to the number of selected
paragraphs in this in-process implementation. -/
def runMacro2ManualNumberingSelection (paras : List Str)
    (spacingMode : SpacingMode) : Except Str (List Str × Macro2Result) :=
  let starts := selectedParagraphStarts 0 paras
  if starts = [] then
    .error (str "Selecione uma lista no editor.")
  else
    let suffix := spacingSuffix spacingMode
    let useLeadingZero := starts.length > 9
    let newDoc := starts.enum.foldr
      (fun ip doc =>
        insertTextAt
          (macro2PrefixNumber useLeadingZero (ip.1 + 1) ++ '.' :: suffix)
          ip.2 doc)
      paras
    .ok (newDoc, { converted := starts.length, hadNumbering := starts.length })

end ManualNumbering

-- Scratch sanity check of the position arithmetic.
example :
    runMacro2ManualNumberingSelection [str "Alpha", str "Beta", str "Gamma"]
      .normal_single =
    .ok ([str "1. Alpha", str "2. Beta", str "3. Gamma"],
      { converted := 3, hadNumbering := 3 }) := by rfl

section ManualNumberingClaims

/-- C4: for a selection of exactly the three non-empty paragraphs
`["Alpha","Beta","Gamma"]` with `spacingMode = normal_single`,
`runMacro2ManualNumberingSelection` produces the final paragraph texts
`["1. Alpha","2. Beta","3. Gamma"]` (the macro inserts the prefixes from
the last selected paragraph to the first, so the earlier insertions do not
shift the absolute offsets of the paragraphs not yet processed — the fold
in the definition replays exactly that order over absolute positions). -/
theorem runMacro2_alpha_beta_gamma :
    runMacro2ManualNumberingSelection [str "Alpha", str "Beta", str "Gamma"]
      .normal_single =
    .ok ([str "1. Alpha", str "2. Beta", str "3. Gamma"],
      { converted := 3, hadNumbering := 3 }) := by rfl

end ManualNumberingClaims

section OnlyOfficeManualNumbering

/-!
## `macro2ManualNumberingSelection` (OnlyOfficeEditor.tsx lines 1325-1411)

The OnlyOffice variant of Macro 2 runs inside the embedded plugin against
the editor's scripting API.  A selected paragraph is modelled by its text
and a flag telling whether the paragraph was already using automatic/native
numbered-list formatting (the `IsNumberedList`/`GetNumbering`/`GetNumPr`
detection — an external editor API — is abstracted into this flag; the
`GetRange(0,0).AddText` insertion path is modelled as always available and
successful, matching the happy path of the source).  Unlike the in-process
variant this implementation counts `hadNumbering` from that detection and
numbers every selected paragraph (blank or not), walking top to bottom over
structural paragraph handles.
-/

/-- A paragraph of the OnlyOffice selection. -/
structure OOParagraph where
  text : Str
  isNumbered : Bool
deriving DecidableEq, Repr

/-- Spacing suffix of the OnlyOffice macro: `spacingMode` is a plain string
here — NBSP when it starts with `"nbsp"`, doubled when it ends with
`"double"`. -/
def ooMacro2Suffix (spacingMode : Str) : Str :=
  let spaceUnit : Char := if (str "nbsp").isPrefixOf spacingMode then ' ' else ' '
  let spaceCount : Nat := if (str "double").isSuffixOf spacingMode then 2 else 1
  List.replicate spaceCount spaceUnit

/-- The OnlyOffice `macro2ManualNumberingSelection`: fails when the
selection holds no paragraph, otherwise prepends
`"{number}.{suffix}"` to every selected paragraph (numbering top to
bottom over paragraph handles, zero-padding exactly when more than 9
paragraphs are selected) and returns
`{converted := successful insertions, hadNumbering := paragraphs already
natively numbered}`. -/
def ooMacro2ManualNumberingSelection (paras : List OOParagraph)
    (spacingMode : Str) : Except Str (List OOParagraph × Macro2Result) :=
  if paras = [] then
    .error (str "Selecione uma lista numerada no documento.")
  else
    let totalSelected := paras.length
    let useLeadingZero := totalSelected > 9
    let suffix := ooMacro2Suffix spacingMode
    let processed := paras.enum.map (fun ip =>
      { ip.2 with
        text := macro2PrefixNumber useLeadingZero (ip.1 + 1) ++
          '.' :: suffix ++ ip.2.text })
    let converted := paras.length
    let hadNumbering := (paras.filter (fun p => p.isNumbered)).length
    if converted ≤ 0 then
      .error (str "Nao foi possivel converter a selecao em lista manual.")
    else
      .ok (processed, { converted := converted, hadNumbering := hadNumbering })

/-- From the spec's words, the value C6 requires `hadNumbering` to carry
for the in-process macro: the count of selected paragraphs that were
already using automatic/native numbered-list formatting.  The in-process
document model is a flat list of plain `paragraph` blocks — TipTap native
numbering (an `orderedList` wrapping) does not occur in it — so this count
is zero for every document. -/
def htmlEditorNativeNumberedCount (_paras : List Str) : Nat := 0

end OnlyOfficeManualNumbering

-- Scratch sanity check of the OnlyOffice macro.
example :
    ooMacro2ManualNumberingSelection
      [{ text := str "Alpha", isNumbered := true },
       { text := str "Beta", isNumbered := false }] (str "normal_single") =
    .ok ([{ text := str "1. Alpha", isNumbered := true },
      { text := str "2. Beta", isNumbered := false }],
      { converted := 2, hadNumbering := 1 }) := by rfl

section HadNumberingClaims

/-- C6 counterexample: the in-process macro does *not* return the count of
paragraphs already natively numbered.  On the single plain paragraph
`"Alpha"` — a document in which no paragraph carries automatic/native
numbered-list formatting, so the spec-mandated count is 0 — the macro
returns `hadNumbering = 1` (it always copies the selected-paragraph
count). -/
theorem runMacro2_hadNumbering_counterexample :
    runMacro2ManualNumberingSelection [str "Alpha"] SpacingMode.normal_single =
        .ok ([str "1. Alpha"], { converted := 1, hadNumbering := 1 }) ∧
      htmlEditorNativeNumberedCount [str "Alpha"] = 0 ∧ (1 : Nat) ≠ 0 :=
  ⟨rfl, rfl, by decide⟩

/-- C6 (amended): in the cross-origin (OnlyOffice) macro, every successful
run returns `hadNumbering` equal to the count of selected paragraphs that
were already using automatic/native numbered-list formatting and
`converted` equal to the count of successful prefix insertions (here the
whole selection); the in-process macro instead returns `hadNumbering`
equal to `converted` (the selected-paragraph count), regardless of prior
numbering. -/
theorem macro2_hadNumbering_amended (paras : List OOParagraph)
    (spacingMode : Str) (tparas : List Str) (tmode : SpacingMode)
    (h : paras ≠ []) :
    (∃ out, ooMacro2ManualNumberingSelection paras spacingMode = .ok out ∧
      out.2.hadNumbering = (paras.filter (fun p => p.isNumbered)).length ∧
      out.2.converted = paras.length) ∧
    (∀ out, runMacro2ManualNumberingSelection tparas tmode = .ok out →
      out.2.hadNumbering = out.2.converted) := by
  constructor
  · have hlen : ¬ paras.length ≤ 0 := by
      cases paras with
      | nil => exact absurd rfl h
      | cons p rest => simp
    rw [ooMacro2ManualNumberingSelection, if_neg h]
    simp only [if_neg hlen]
    exact ⟨_, rfl, rfl, rfl⟩
  · intro out hout
    rw [runMacro2ManualNumberingSelection] at hout
    by_cases hs : selectedParagraphStarts 0 tparas = []
    · rw [if_pos hs] at hout
      exact absurd hout (by simp)
    · rw [if_neg hs] at hout
      simp only [Except.ok.injEq] at hout
      rw [← hout]

/-- Witness for the amended C6 at a concrete two-paragraph selection, one
of which is natively numbered. -/
theorem macro2_hadNumbering_amended_witness :
    ([⟨str "Alpha", true⟩, ⟨str "Beta", false⟩] ≠ ([] : List OOParagraph)) ∧
      ((∃ out, ooMacro2ManualNumberingSelection
          [⟨str "Alpha", true⟩, ⟨str "Beta", false⟩] (str "nbsp_double") = .ok out ∧
          out.2.hadNumbering =
            (([⟨str "Alpha", true⟩, ⟨str "Beta", false⟩] : List OOParagraph).filter
              (fun p => p.isNumbered)).length ∧
          out.2.converted =
            ([⟨str "Alpha", true⟩, ⟨str "Beta", false⟩] : List OOParagraph).length) ∧
        (∀ out, runMacro2ManualNumberingSelection [str "Gamma"]
            SpacingMode.nbsp_double = .ok out →
          out.2.hadNumbering = out.2.converted)) :=
  ⟨by decide,
    macro2_hadNumbering_amended [⟨str "Alpha", true⟩, ⟨str "Beta", false⟩]
      (str "nbsp_double") [str "Gamma"] SpacingMode.nbsp_double (by decide)⟩

end HadNumberingClaims

section NumeralWidthClaims

/-!
## The numeral-width threshold of Macro 2

Both implementations zero-pad the inserted numerals exactly when the
number of paragraphs they enumerate exceeds 9, but they enumerate
different lists: the in-process macro first filters the selection down to
its non-blank paragraphs (`if (!node.textContent.trim()) return`), while
the OnlyOffice macro numbers every paragraph of the selection — blank
ones included — and takes `useLeadingZero = paragraphs.length > 9` over
that unfiltered list (OnlyOfficeEditor.tsx lines 1334-1356).  A selection
of 9 non-empty plus 1 blank paragraph therefore gets padded `"01."`
prefixes from the OnlyOffice macro although only 9 selected paragraphs
are non-empty.
-/

/-- Nine non-empty OnlyOffice paragraphs. -/
def ooNineLetters : List OOParagraph :=
  [⟨str "a", false⟩, ⟨str "b", false⟩, ⟨str "c", false⟩, ⟨str "d", false⟩,
   ⟨str "e", false⟩, ⟨str "f", false⟩, ⟨str "g", false⟩, ⟨str "h", false⟩,
   ⟨str "i", false⟩]

/-- The same nine plus one blank paragraph: ten enumerated paragraphs, of
which nine are non-empty. -/
def ooNinePlusBlank : List OOParagraph := ooNineLetters ++ [⟨str "", false⟩]

/-- C5 counterexample: in the OnlyOffice macro the padding threshold
counts *all* selected paragraphs, not the non-empty ones.  For a selection
of 9 non-empty plus 1 blank paragraph — so the list `P` of selected
non-empty paragraphs has `|P| = 9 ≤ 9` — every inserted prefix is
zero-padded: the first paragraph becomes `"01. a"`, not the `"1. a"` the
claim requires. -/
theorem macro2_numeral_width_counterexample :
    (ooNinePlusBlank.filter (fun p => jsTrim p.text ≠ [])).length = 9 ∧
      ooMacro2ManualNumberingSelection ooNinePlusBlank (str "normal_single") =
        .ok ([⟨str "01. a", false⟩, ⟨str "02. b", false⟩, ⟨str "03. c", false⟩,
          ⟨str "04. d", false⟩, ⟨str "05. e", false⟩, ⟨str "06. f", false⟩,
          ⟨str "07. g", false⟩, ⟨str "08. h", false⟩, ⟨str "09. i", false⟩,
          ⟨str "10. ", false⟩],
          { converted := 10, hadNumbering := 0 }) ∧
      str "01. a" ≠ str "1. a" :=
  ⟨by decide, by rfl, by decide⟩

/-- C5 (amended): the numeral-width threshold is applied to the count of
paragraphs the macro enumerates.  In the in-process macro that count is
the selected *non-empty* paragraphs, and the claim holds as stated: at
most 9 gives unpadded prefixes (a 9-paragraph selection ends in `"9. "`),
10 or more zero-pads every prefix including the first (`"01. "`).  In the
OnlyOffice macro the count is *all* selected paragraphs including blank
ones: when that count is at most 9 the prefixes are unpadded and when it
is 10 or more they are zero-padded — so 9 non-empty plus 1 blank selected
paragraphs get `"01."`. -/
theorem macro2_numeral_width_threshold (total i : Nat)
    (paras : List OOParagraph) (spacingMode : Str) :
    (total ≤ 9 → macro2PrefixNumber (total > 9) i = natStr i) ∧
    (10 ≤ total → macro2PrefixNumber (total > 9) i = padStart2 (natStr i)) ∧
    runMacro2ManualNumberingSelection
      [str "a", str "b", str "c", str "d", str "e", str "f", str "g",
       str "h", str "i"] .normal_single =
      .ok ([str "1. a", str "2. b", str "3. c", str "4. d", str "5. e",
        str "6. f", str "7. g", str "8. h", str "9. i"],
        { converted := 9, hadNumbering := 9 }) ∧
    runMacro2ManualNumberingSelection
      [str "a", str "b", str "c", str "d", str "e", str "f", str "g",
       str "h", str "i", str "j"] .normal_single =
      .ok ([str "01. a", str "02. b", str "03. c", str "04. d", str "05. e",
        str "06. f", str "07. g", str "08. h", str "09. i", str "10. j"],
        { converted := 10, hadNumbering := 10 }) ∧
    (paras ≠ [] → paras.length ≤ 9 →
      ooMacro2ManualNumberingSelection paras spacingMode =
        .ok (paras.enum.map (fun ip =>
          { ip.2 with
            text := natStr (ip.1 + 1) ++ '.' :: ooMacro2Suffix spacingMode ++
              ip.2.text }),
          { converted := paras.length
            hadNumbering := (paras.filter (fun p => p.isNumbered)).length })) ∧
    (10 ≤ paras.length →
      ooMacro2ManualNumberingSelection paras spacingMode =
        .ok (paras.enum.map (fun ip =>
          { ip.2 with
            text := padStart2 (natStr (ip.1 + 1)) ++ '.' ::
              ooMacro2Suffix spacingMode ++ ip.2.text }),
          { converted := paras.length
            hadNumbering := (paras.filter (fun p => p.isNumbered)).length })) := by
  refine ⟨fun h => ?_, fun h => ?_, by rfl, by rfl, fun h hlen => ?_, fun hlen => ?_⟩
  · have hb : decide (total > 9) = false := by
      rw [decide_eq_false_iff_not]
      omega
    rw [hb, macro2PrefixNumber, if_neg (by simp)]
  · have hb : decide (total > 9) = true := by
      rw [decide_eq_true_eq]
      omega
    rw [hb, macro2PrefixNumber, if_pos rfl]
  · have hlen0 : ¬ paras.length ≤ 0 := by
      cases paras with
      | nil => exact absurd rfl h
      | cons p rest => simp
    have hb : decide (paras.length > 9) = false := by
      rw [decide_eq_false_iff_not]
      omega
    rw [ooMacro2ManualNumberingSelection, if_neg h]
    simp only [if_neg hlen0, hb, macro2PrefixNumber, Bool.false_eq_true,
      if_false]
  · have h : paras ≠ [] := by
      intro habs
      rw [habs] at hlen
      simp at hlen
    have hlen0 : ¬ paras.length ≤ 0 := by
      cases paras with
      | nil => exact absurd rfl h
      | cons p rest => simp
    have hb : decide (paras.length > 9) = true := by
      rw [decide_eq_true_eq]
      omega
    rw [ooMacro2ManualNumberingSelection, if_neg h]
    simp only [if_neg hlen0, hb, macro2PrefixNumber, if_true]

/-- Witness for the amended C5: the unpadded/padded formatter cases at 9
and 10, the OnlyOffice macro unpadded on 9 enumerated paragraphs and
padded on the 10 enumerated (9 non-empty + 1 blank) paragraphs. -/
theorem macro2_numeral_width_threshold_witness :
    ((9 ≤ 9 ∧ macro2PrefixNumber (9 > 9) 9 = natStr 9) ∧
      (10 ≤ 10 ∧ macro2PrefixNumber (10 > 9) 1 = padStart2 (natStr 1))) ∧
    (ooNineLetters ≠ [] ∧ ooNineLetters.length ≤ 9 ∧
      ooMacro2ManualNumberingSelection ooNineLetters (str "normal_single") =
        .ok (ooNineLetters.enum.map (fun ip =>
          { ip.2 with
            text := natStr (ip.1 + 1) ++ '.' ::
              ooMacro2Suffix (str "normal_single") ++ ip.2.text }),
          { converted := ooNineLetters.length
            hadNumbering :=
              (ooNineLetters.filter (fun p => p.isNumbered)).length })) ∧
    (10 ≤ ooNinePlusBlank.length ∧
      ooMacro2ManualNumberingSelection ooNinePlusBlank (str "normal_single") =
        .ok (ooNinePlusBlank.enum.map (fun ip =>
          { ip.2 with
            text := padStart2 (natStr (ip.1 + 1)) ++ '.' ::
              ooMacro2Suffix (str "normal_single") ++ ip.2.text }),
          { converted := ooNinePlusBlank.length
            hadNumbering :=
              (ooNinePlusBlank.filter (fun p => p.isNumbered)).length })) :=
  ⟨⟨⟨by decide,
      (macro2_numeral_width_threshold 9 9 ooNineLetters
        (str "normal_single")).1 (by decide)⟩,
    ⟨by decide,
      (macro2_numeral_width_threshold 10 1 ooNineLetters
        (str "normal_single")).2.1 (by decide)⟩⟩,
    ⟨by decide, by decide,
      (macro2_numeral_width_threshold 9 9 ooNineLetters
        (str "normal_single")).2.2.2.2.1 (by decide) (by decide)⟩,
    ⟨by decide,
      (macro2_numeral_width_threshold 10 1 ooNinePlusBlank
        (str "normal_single")).2.2.2.2.2 (by decide)⟩⟩

end NumeralWidthClaims

section Macro1

/-!
## `runMacro1HighlightDocument`

In-process variant (VerbetografiaPanel.tsx lines 358-366): trims the term,
rejects when blank, otherwise resolves the color, highlights the whole
document html and commits the result back via `setContent`.  The
`Except`-shaped result makes the atomicity visible: an `.error` carries no
new document, so nothing is committed — the rejection happens before the
highlight and the content replacement.

Cross-origin variant (`OnlyOfficeControlApi.runMacro1HighlightDocument`,
lines 149-157): trims the term, rejects when blank *before* `this.request`
posts anything — an `.error` result carries no dispatched bridge command.
-/

/-- `HIGHLIGHT_COLOR_MAP` (VerbetografiaPanel.tsx lines 116-123). -/
def HIGHLIGHT_COLOR_MAP : List (Str × Str) :=
  [(str "yellow", str "#fef08a"), (str "green", str "#86efac"),
   (str "cyan", str "#a5f3fc"), (str "magenta", str "#f5d0fe"),
   (str "blue", str "#bfdbfe"), (str "red", str "#fecaca")]

/-- `resolveHighlightColor(color)`: trim and lower-case the key, fall back
to yellow when blank, to the raw input when unrecognised. -/
def resolveHighlightColor (color : Str) : Str :=
  let key := lowerStr (jsTrim color)
  if key = [] then str "#fef08a"
  else
    match HIGHLIGHT_COLOR_MAP.lookup key with
    | some v => v
    | none => color

/-- Result record of Macro 1 (apply). -/
structure Macro1Result where
  terms : Nat
  «matches» : Nat
  highlighted : Nat
  color : Str
deriving DecidableEq, Repr

/-- In-process `runMacro1HighlightDocument(text, color)` over the current
document html. -/
def runMacro1HighlightDocument (docHtml : NodeList) (text color : Str) :
    Except Str (NodeList × Macro1Result) :=
  let term := jsTrim text
  if term = [] then
    .error (str "Informe o Texto de entrada para a Macro1.")
  else
    let resolvedColor := resolveHighlightColor color
    let r := highlightInHtml docHtml term resolvedColor
    .ok (r.1,
      { terms := 1
        «matches» := r.2
        highlighted := r.2
        color := resolvedColor })

/-- A command envelope posted over the bridge:
`{source: APP_SOURCE, type: "command", id, command, payload}`. -/
structure BridgeCommand where
  command : Str
  payloadText : Str
  payloadColor : Str
deriving DecidableEq, Repr

/-- Cross-origin `runMacro1HighlightDocument(text, color)`: the command it
dispatches, or the rejection raised before any dispatch. -/
def ooRunMacro1HighlightDocument (text color : Str) : Except Str BridgeCommand :=
  let content := jsTrim text
  if content = [] then
    .error (str "Informe o Texto de entrada para a Macro1.")
  else
    .ok
      { command := str "macro1HighlightDocument"
        payloadText := content
        payloadColor := color }

end Macro1

section Macro1Claims

/-- C7: empty-term rejection is atomic — for every input text that is blank
after trimming, both `runMacro1HighlightDocument` variants reject with the
error message naming the missing input text ("Informe o Texto de entrada
para a Macro1."), and since the result is an `.error`, no new document
content is produced (in-process) and no bridge command is dispatched
(cross-origin): the rejection happens before any replacement or dispatch. -/
theorem runMacro1_empty_term_rejected (docHtml : NodeList) (text color : Str)
    (h : jsTrim text = []) :
    runMacro1HighlightDocument docHtml text color =
        .error (str "Informe o Texto de entrada para a Macro1.") ∧
      ooRunMacro1HighlightDocument text color =
        .error (str "Informe o Texto de entrada para a Macro1.") := by
  constructor
  · rw [runMacro1HighlightDocument]
    simp [h]
  · rw [ooRunMacro1HighlightDocument]
    simp [h]

/-- Witness for C7 on a whitespace-only input text. -/
theorem runMacro1_empty_term_rejected_witness :
    jsTrim (str "   ") = [] ∧
      (runMacro1HighlightDocument sampleDoc (str "   ") (str "yellow") =
          .error (str "Informe o Texto de entrada para a Macro1.") ∧
        ooRunMacro1HighlightDocument (str "   ") (str "yellow") =
          .error (str "Informe o Texto de entrada para a Macro1.")) :=
  ⟨by decide,
    runMacro1_empty_term_rejected sampleDoc (str "   ") (str "yellow") (by decide)⟩

end Macro1Claims

section Bridge

/-!
## `OnlyOfficeControlApi` request correlation (onlyoffice-control, lines 28-181)

The bridge state carries the readiness flag, the captured remote window
(modelled as a flag), the latest selection snapshot and the pending-request
map.  Request ids are fresh UUIDs and `Map` keys are unique, so the map is
modelled as a duplicate-free list of ids (the resolve/reject callbacks are
not data; the settlement of a request is reported as the step's outcome).
`Date.now()` is passed in as `now`.
-/

/-- A selection snapshot `{text, selectionType, changedAt}`. -/
structure Snapshot where
  text : Str
  selectionType : Str
  changedAt : Nat
deriving DecidableEq, Repr

/-- The mutable state of one `OnlyOfficeControlApi` instance. -/
structure BridgeState where
  pluginReady : Bool
  hasBridgeWindow : Bool
  latestSelection : Snapshot
  requestMap : List Str
deriving DecidableEq, Repr

/-- An incoming `postMessage` event's data, after the `(event.data || {})`
normalisation: `{source, type, payload: {id, result, message, text,
selectionType, changedAt}}` (absent fields are `none`). -/
structure BridgeMessage where
  source : Str
  type : Str
  payloadId : Option Str
  payloadMessage : Option Str
  payloadText : Option Str
  payloadSelectionType : Option Str
  payloadChangedAt : Option Nat
deriving DecidableEq, Repr

/-- What one handler step did, as observed by callers: nothing, the ready
handshake, a selection broadcast, or the settlement of the pending request
named by the id. -/
inductive BridgeOutcome where
  | ignored
  | readyReceived
  | selectionBroadcast (snapshot : Snapshot)
  | resolved (id : Str)
  | rejected (id : Str) (message : Str)
  | dropped (id : Str)
deriving DecidableEq, Repr

/-- `PLUGIN_SOURCE`. -/
def PLUGIN_SOURCE : Str := str "parapreceptor-onlyoffice-plugin"

/-- The `messageHandler` installed by `init()` (lines 44-74): drop foreign
sources; `ready` sets the flag and captures the window; `selectionChanged`
updates the snapshot and fans out; anything else is correlated by
`payload.id` — a missing/empty id or an id not in the pending map is
silently ignored (late or duplicate messages after a timeout), otherwise
the entry is removed, its timer cleared, and the request resolved
(`response`) or rejected (`error`). -/
def messageHandler (s : BridgeState) (m : BridgeMessage) (now : Nat) :
    BridgeState × BridgeOutcome :=
  if m.source ≠ PLUGIN_SOURCE then (s, .ignored)
  else if m.type = str "ready" then
    ({ s with pluginReady := true, hasBridgeWindow := true }, .readyReceived)
  else if m.type = str "selectionChanged" then
    let snapshot : Snapshot :=
      { text := m.payloadText.getD []
        selectionType :=
          match m.payloadSelectionType with
          | some t => if t = [] then str "unknown" else t
          | none => str "unknown"
        changedAt :=
          match m.payloadChangedAt with
          | some n => if n = 0 then now else n
          | none => now }
    ({ s with hasBridgeWindow := true, latestSelection := snapshot },
      .selectionBroadcast snapshot)
  else
    match m.payloadId with
    | none => (s, .ignored)
    | some id =>
      if id = [] then (s, .ignored)
      else if id ∈ s.requestMap then
        let s' := { s with requestMap := s.requestMap.erase id }
        if m.type = str "response" then (s', .resolved id)
        else if m.type = str "error" then
          (s', .rejected id
            (match m.payloadMessage with
             | some msg => if msg = [] then str "Erro no bridge ONLYOFFICE." else msg
             | none => str "Erro no bridge ONLYOFFICE."))
        else (s', .dropped id)
      else (s, .ignored)

/-- The timer armed by `request` (lines 172-175): on expiry the pending
entry is deleted from the map and the promise rejected with the timeout
error naming the command. -/
def requestTimeout (s : BridgeState) (id command : Str) :
    BridgeState × BridgeOutcome :=
  ({ s with requestMap := s.requestMap.erase id },
    .rejected id (str "Timeout comando bridge: " ++ command))

/-- `request` dispatch (lines 166-179): fails synchronously when no target
window resolves, otherwise registers the fresh id in the pending map and
posts the command. -/
def dispatchRequest (s : BridgeState) (id : Str) (targetAvailable : Bool) :
    Except Str BridgeState :=
  if !targetAvailable then .error (str "Iframe ONLYOFFICE indisponivel.")
  else .ok { s with requestMap := s.requestMap ++ [id] }

end Bridge

section BridgeClaims

/-- C3: every pending request is removed from the pending map when its
timer expires (the promise is rejected with the timeout error naming the
command), and any response or error message arriving afterwards whose id is
no longer pending is silently ignored — no resolution, no rejection, no
state change. -/
theorem bridge_timeout_then_late_message_ignored (s : BridgeState)
    (id command : Str) (m : BridgeMessage) (now : Nat)
    (hnodup : s.requestMap.Nodup)
    (htype : m.type = str "response" ∨ m.type = str "error")
    (hid : m.payloadId = some id) :
    id ∉ (requestTimeout s id command).1.requestMap ∧
      (requestTimeout s id command).2 =
        .rejected id (str "Timeout comando bridge: " ++ command) ∧
      (∀ s' : BridgeState, id ∉ s'.requestMap →
        messageHandler s' m now = (s', .ignored)) := by
  refine ⟨?_, rfl, ?_⟩
  · exact hnodup.not_mem_erase
  · intro s' habs
    rw [messageHandler]
    by_cases hsrc : m.source ≠ PLUGIN_SOURCE
    · rw [if_pos hsrc]
    · rw [if_neg hsrc]
      have hready : ¬ m.type = str "ready" := by
        rcases htype with h | h <;> rw [h] <;> decide
      have hsel : ¬ m.type = str "selectionChanged" := by
        rcases htype with h | h <;> rw [h] <;> decide
      rw [if_neg hready, if_neg hsel, hid]
      by_cases hempty : id = []
      · simp [hempty]
      · simp [hempty, habs]

/-- Witness for C3: a pending request `"req-1"` timing out on a one-entry
map, followed by a late error message with the same id. -/
theorem bridge_timeout_then_late_message_ignored_witness :
    ([str "req-1"].Nodup ∧
      ((str "error") = str "response" ∨ (str "error") = str "error") ∧
      (some (str "req-1") : Option Str) = some (str "req-1")) ∧
    ((str "req-1") ∉ (requestTimeout
        { pluginReady := true, hasBridgeWindow := true
          latestSelection := { text := [], selectionType := str "none", changedAt := 5 }
          requestMap := [str "req-1"] } (str "req-1") (str "getDocumentStats")).1.requestMap ∧
      (requestTimeout
        { pluginReady := true, hasBridgeWindow := true
          latestSelection := { text := [], selectionType := str "none", changedAt := 5 }
          requestMap := [str "req-1"] } (str "req-1") (str "getDocumentStats")).2 =
        .rejected (str "req-1")
          (str "Timeout comando bridge: " ++ str "getDocumentStats") ∧
      (∀ s' : BridgeState, (str "req-1") ∉ s'.requestMap →
        messageHandler s'
          { source := PLUGIN_SOURCE, type := str "error"
            payloadId := some (str "req-1")
            payloadMessage := some (str "late")
            payloadText := none, payloadSelectionType := none
            payloadChangedAt := none } 9 = (s', .ignored))) := by
  refine ⟨⟨by decide, Or.inr rfl, rfl⟩, ?_⟩
  exact bridge_timeout_then_late_message_ignored
    { pluginReady := true, hasBridgeWindow := true
      latestSelection := { text := [], selectionType := str "none", changedAt := 5 }
      requestMap := [str "req-1"] }
    (str "req-1") (str "getDocumentStats")
    { source := PLUGIN_SOURCE, type := str "error"
      payloadId := some (str "req-1")
      payloadMessage := some (str "late")
      payloadText := none, payloadSelectionType := none
      payloadChangedAt := none } 9
    (by decide) (Or.inr rfl) rfl

end BridgeClaims

section RemoteCommandHandler

/-!
## Remote command handlers

Two dispatch tables exist in the repository: the full plugin embedded in
`OnlyOfficeEditor.tsx` (lines 1632-1673) and the older
`server/plugin.template.js` (lines 113-142).  Each `case` body executes the
embedded editor's own scripting API (`Asc.plugin.executeMethod` /
`callCommand` — an external collaborator), so the action taken is modelled
as an opaque action tag; what is verified is the dispatch itself: which
commands reach an implementation and what the `default` branch reports.
The surrounding `window` message listener turns a successful handler result
into a `response` envelope and a thrown error into an `error` envelope with
the thrown message — an unknown command therefore always reports an
unsupported-command error back to the sender, never a success response.
-/

/-- The action a supported command executes (the editor-API calls inside
each `case` are external and abstracted to this tag). -/
inductive PluginAction where
  | getSelectedText
  | selectAll
  | replaceSelection
  | refreshSelection
  | getDocumentPageCount
  | getDocumentStats
  | macro1Highlight
  | macro1ClearHighlight
  | macro2ManualNumbering
  | macro2ManualNumberingPreview
deriving DecidableEq, Repr

/-- `handleCommand` of the plugin embedded in OnlyOfficeEditor.tsx. -/
def pluginHandleCommand (command : Str) : Except Str PluginAction :=
  if command = str "getSelectedText" then .ok .getSelectedText
  else if command = str "selectAllContent" then .ok .selectAll
  else if command = str "replaceSelection" then .ok .replaceSelection
  else if command = str "refreshSelection" then .ok .refreshSelection
  else if command = str "getDocumentPageCount" then .ok .getDocumentPageCount
  else if command = str "getDocumentStats" then .ok .getDocumentStats
  else if command = str "macro1HighlightDocument" then .ok .macro1Highlight
  else if command = str "macro1ClearHighlightDocument" then .ok .macro1ClearHighlight
  else if command = str "macro2ManualNumberingSelection" then .ok .macro2ManualNumbering
  else if command = str "macro2ManualNumberingPreviewSelection" then .ok .macro2ManualNumberingPreview
  else .error (str "Comando nao suportado: " ++ command)

/-- `handleCommand` of `server/plugin.template.js` — only four commands. -/
def templateHandleCommand (command : Str) : Except Str PluginAction :=
  if command = str "getSelectedText" then .ok .getSelectedText
  else if command = str "selectAllContent" then .ok .selectAll
  else if command = str "replaceSelection" then .ok .replaceSelection
  else if command = str "refreshSelection" then .ok .refreshSelection
  else .error (str "Comando nao suportado: " ++ command)

/-- What the plugin posts back to the hosting page for one command. -/
inductive PluginReply where
  | response (id : Option Str) (action : PluginAction)
  | error (id : Option Str) (message : Str)
deriving DecidableEq, Repr

/-- The `window` message listener around `handleCommand`: success becomes a
`response` envelope, a thrown error becomes an `error` envelope carrying
the message. -/
def pluginRespond (handler : Str → Except Str PluginAction) (id : Option Str)
    (command : Str) : PluginReply :=
  match handler command with
  | .ok a => .response id a
  | .error msg => .error id msg

/-- The commands in the embedded plugin's dispatch table. -/
def pluginSupportedCommands : List Str :=
  [str "getSelectedText", str "selectAllContent", str "replaceSelection",
   str "refreshSelection", str "getDocumentPageCount", str "getDocumentStats",
   str "macro1HighlightDocument", str "macro1ClearHighlightDocument",
   str "macro2ManualNumberingSelection",
   str "macro2ManualNumberingPreviewSelection"]

/-- The commands in the template's dispatch table. -/
def templateSupportedCommands : List Str :=
  [str "getSelectedText", str "selectAllContent", str "replaceSelection",
   str "refreshSelection"]

end RemoteCommandHandler

section RemoteCommandHandlerClaims

/-- C9 counterexample: the Remote Command Handler of
`server/plugin.template.js` does *not* handle the stats and highlight
commands claimed as its minimum: `getDocumentStats` falls through to the
`default` branch and is reported back as an unsupported-command error (and
likewise the two highlight commands). -/
theorem templateHandleCommand_counterexample :
    templateHandleCommand (str "getDocumentStats") =
        .error (str "Comando nao suportado: getDocumentStats") ∧
      templateHandleCommand (str "macro1HighlightDocument") =
        .error (str "Comando nao suportado: macro1HighlightDocument") ∧
      templateHandleCommand (str "macro1ClearHighlightDocument") =
        .error (str "Comando nao suportado: macro1ClearHighlightDocument") := by
  refine ⟨?_, ?_, ?_⟩ <;> rfl

/-- C9 (amended): the Remote Command Handler embedded in
`OnlyOfficeEditor.tsx` handles at minimum get-selected-text, select-all,
replace-selection, refresh-selection, get-document-stats, highlight-apply
and highlight-clear; the handler of `server/plugin.template.js` handles
only the first four of these; and in both handlers every command name
outside the dispatch table is reported back to the sender as an
unsupported-command error envelope — an error message, never a success
response. -/
theorem remoteCommandHandler_dispatch (command : Str) (id : Option Str) :
    (pluginHandleCommand (str "getSelectedText") = .ok .getSelectedText ∧
      pluginHandleCommand (str "selectAllContent") = .ok .selectAll ∧
      pluginHandleCommand (str "replaceSelection") = .ok .replaceSelection ∧
      pluginHandleCommand (str "refreshSelection") = .ok .refreshSelection ∧
      pluginHandleCommand (str "getDocumentStats") = .ok .getDocumentStats ∧
      pluginHandleCommand (str "macro1HighlightDocument") = .ok .macro1Highlight ∧
      pluginHandleCommand (str "macro1ClearHighlightDocument") =
        .ok .macro1ClearHighlight) ∧
    (command ∉ pluginSupportedCommands →
      pluginRespond pluginHandleCommand id command =
        .error id (str "Comando nao suportado: " ++ command)) ∧
    (command ∉ templateSupportedCommands →
      pluginRespond templateHandleCommand id command =
        .error id (str "Comando nao suportado: " ++ command)) := by
  refine ⟨⟨rfl, rfl, rfl, rfl, rfl, rfl, rfl⟩, ?_, ?_⟩
  · intro h
    simp only [pluginSupportedCommands, List.mem_cons, List.not_mem_nil,
      or_false, not_or] at h
    obtain ⟨h1, h2, h3, h4, h5, h6, h7, h8, h9, h10⟩ := h
    rw [pluginRespond, pluginHandleCommand]
    simp only [if_neg h1, if_neg h2, if_neg h3, if_neg h4, if_neg h5,
      if_neg h6, if_neg h7, if_neg h8, if_neg h9, if_neg h10]
  · intro h
    simp only [templateSupportedCommands, List.mem_cons, List.not_mem_nil,
      or_false, not_or] at h
    obtain ⟨h1, h2, h3, h4⟩ := h
    rw [pluginRespond, templateHandleCommand]
    simp only [if_neg h1, if_neg h2, if_neg h3, if_neg h4]

/-- Witness for the amended C9 at an unknown command name. -/
theorem remoteCommandHandler_dispatch_witness :
    (str "bogusCommand" ∉ pluginSupportedCommands ∧
      str "bogusCommand" ∉ templateSupportedCommands) ∧
      (pluginRespond pluginHandleCommand (some (str "7")) (str "bogusCommand") =
          .error (some (str "7")) (str "Comando nao suportado: " ++ str "bogusCommand") ∧
        pluginRespond templateHandleCommand (some (str "7")) (str "bogusCommand") =
          .error (some (str "7")) (str "Comando nao suportado: " ++ str "bogusCommand")) :=
  ⟨⟨by decide, by decide⟩,
    (remoteCommandHandler_dispatch (str "bogusCommand") (some (str "7"))).2.1
      (by decide),
    (remoteCommandHandler_dispatch (str "bogusCommand") (some (str "7"))).2.2
      (by decide)⟩

end RemoteCommandHandlerClaims
